import Mathlib

/-!
Verification of the FlashSigmoid attention layers
(`attention_simulator/layers/flash_sigmoid_attention.py`).

Scalars are idealized as real numbers.  Tensors are nested lists:
`FVec` is a feature vector (the last axis), `Tens3` a
(batch, seq, feature) tensor, `Tens4` a (batch, seq, heads, head_dim)
tensor and `Tens5` a packed (batch, seq, 3, heads, head_dim) tensor.
A `DTensor` additionally records the tensor's numeric dtype as an
abstract label; a dtype cast (`torch.Tensor.to`) relabels the tensor
and — in this idealization, where every dtype's values are exact
reals — keeps the data.

The fused attention kernel (`flash_exp.flash_attn_func` /
`flash_attn_qkvpacked_func`) is an external dependency of the
repository; it is modelled here from the specification's kernel
contract.  Attention dropout is modelled at its deterministic
(inference / probability-0) semantics, since its randomness is
external to the layer; the dropout probability arguments are kept so
that call shapes match the source.
-/

set_option maxHeartbeats 1000000
set_option maxRecDepth 4000

/-- A feature vector: the last axis of a tensor. -/
abbrev FVec := List ℝ

/-- A (batch, seq, feature) tensor. -/
abbrev Tens3 := List (List FVec)

/-- A (batch, seq, heads, head_dim) tensor. -/
abbrev Tens4 := List (List (List FVec))

/-- A packed (batch, seq, 3, heads, head_dim) tensor. -/
abbrev Tens5 := List (List (List (List FVec)))

/-- Dot product of two feature vectors (zip-truncating; the source only
applies it to equal-length vectors). -/
def dotVec (a b : FVec) : ℝ := (List.zipWith (fun x y => x * y) a b).sum

/-- Scalar multiple of a feature vector. -/
def smulVec (c : ℝ) (v : FVec) : FVec := v.map (fun x => c * x)

/-- Entrywise sum of two feature vectors. -/
def vadd (a b : FVec) : FVec := List.zipWith (fun x y => x + y) a b

/-- Sum of a list of feature vectors of common length `d`. -/
def sumVecs (d : ℕ) (l : List FVec) : FVec := l.foldr vadd (List.replicate d 0)

/-- The logistic sigmoid, the weighting nonlinearity of the kernel. -/
noncomputable def sigmoid (x : ℝ) : ℝ := 1 / (1 + Real.exp (-x))

/-- Modelled from the spec: the ALiBi bias `-slope * |i + seqlen_k - seqlen_q - j|`
added to the attention logit of query `i` and key `j` (missing source:
the external `flash_exp` kernel). -/
def alibiBias (slope : ℝ) (nq nk i j : ℕ) : ℝ :=
  -slope * (((i : ℤ) + nk - nq - j).natAbs : ℝ)

/-- Modelled from the spec: whether the (query `i`, key `j`) pair is masked
out, by causal masking (key positions past `i + seqlen_k - seqlen_q`) or by
the sliding window `(left, right)` with `-1` disabling a bound (missing
source: the external `flash_exp` kernel). -/
def maskedAt (causal : Bool) (win : ℤ × ℤ) (nq nk i j : ℕ) : Bool :=
  (causal && decide ((i : ℤ) + nk - nq < j))
    || (decide (0 ≤ win.1) && decide ((j : ℤ) < i - win.1))
    || (decide (0 ≤ win.2) && decide ((i : ℤ) + win.2 < j))

/-- The per-head slope taken from an optional per-head slope list. -/
def slopeAt (al : Option (List ℝ)) (h : ℕ) : ℝ :=
  match al with
  | none => 0
  | some s => s.getD h 0

/-- Modelled from the spec: one batch element, one head of the sigmoid
attention kernel.  `q` is the list of query vectors, `k`/`v` the key and
value vectors.  For each query `i`, the output is the sum over the
unmasked keys `j` of `sigmoid((q_i . k_j) * scale + alibi + sigmoid_bias)`
times `v_j` — the weights are not re-normalized across `j` (missing
source: the external `flash_exp` kernel). -/
noncomputable def refKernelBH (scale slope sb : ℝ) (causal : Bool) (win : ℤ × ℤ)
    (q k v : List FVec) : List FVec :=
  (List.range q.length).map (fun i =>
    sumVecs (v.getD 0 []).length
      ((List.range k.length).filterMap (fun j =>
        if maskedAt causal win q.length k.length i j then none
        else some (smulVec
          (sigmoid (dotVec (q.getD i []) (k.getD j []) * scale
            + alibiBias slope q.length k.length i j + sb))
          (v.getD j [])))))

/-- The head-`h` slice of one batch element: a (seq, head, dim) nest to a
(seq, dim) nest. -/
def headSlice (h : ℕ) (x : List (List FVec)) : List FVec :=
  x.map (fun s => s.getD h [])

/-- Modelled from the spec: one batch element of the sigmoid attention
kernel, iterating `refKernelBH` over the heads of the query (missing
source: the external `flash_exp` kernel). -/
noncomputable def refKernelB (scale sb : ℝ) (al : Option (List ℝ)) (causal : Bool)
    (win : ℤ × ℤ) (qb kb vb : List (List FVec)) : List (List FVec) :=
  (List.range qb.length).map (fun i =>
    (List.range (qb.getD 0 []).length).map (fun h =>
      (refKernelBH scale (slopeAt al h) sb causal win
        (headSlice h qb) (headSlice h kb) (headSlice h vb)).getD i []))

/-- The head dimension (size of the last axis) of a (batch, seq, heads,
head_dim) tensor, read off its first entry — `q.size(-1)` in the source. -/
def headDimT4 (x : Tens4) : ℕ := (((x.getD 0 []).getD 0 []).getD 0 []).length

/-- Modelled from the spec: the unpacked sigmoid attention kernel
`flash_exp.flash_attn_func`.  When `softmaxScale` is absent the kernel
falls back to its own default logit scale `head_dim ^ (-1/2)` (missing
source: the external `flash_exp` kernel; dropout is modelled at its
deterministic probability-0 semantics). -/
noncomputable def flashAttnSigmoidFunc (softmaxScale : Option ℝ) (sb _attnDrop : ℝ)
    (win : ℤ × ℤ) (al : Option (List ℝ)) (causal : Bool) (q k v : Tens4) : Tens4 :=
  let scale := softmaxScale.getD ((headDimT4 q : ℝ) ^ (-(1 / 2) : ℝ))
  (List.range q.length).map (fun b =>
    refKernelB scale sb al causal win (q.getD b []) (k.getD b []) (v.getD b []))

/-- Scale every scalar entry of a (batch, seq, heads, head_dim) tensor. -/
def scaleT4 (s : ℝ) (x : Tens4) : Tens4 :=
  x.map (fun b => b.map (fun n => n.map (smulVec s)))

/-- Flatten a (batch, seq, heads, head_dim) tensor along (heads, head_dim):
`.flatten(2)` in the source. -/
def flatten2 (x : Tens4) : Tens3 := x.map (fun b => b.map List.flatten)

/-- The unfused attn helper `flash2_sigmoid_attn` of the source: with
`prescale` it multiplies `q` and `k` each by `head_dim ^ (-1/4)` and calls
the kernel with `softmax_scale = 1.0`; otherwise it passes `q`, `k`
unscaled with `softmax_scale = None`. -/
noncomputable def flash2_sigmoid_attn (q k v : Tens4) (sigmoid_bias : ℝ)
    (attn_drop : ℝ) (window_size : ℤ × ℤ) (alibi_slopes : Option (List ℝ))
    (causal : Bool) (prescale : Bool) : Tens3 :=
  let scale_factor := (headDimT4 q : ℝ) ^ (-(1 / 4) : ℝ)
  flatten2 (flashAttnSigmoidFunc
    (if prescale then some 1 else none)
    sigmoid_bias attn_drop window_size alibi_slopes causal
    (if prescale then scaleT4 scale_factor q else q)
    (if prescale then scaleT4 scale_factor k else k)
    v)

/-- The head dimension (size of the last axis) of a packed
(batch, seq, 3, heads, head_dim) tensor — `qkv.size(-1)` in the source. -/
def headDimT5 (x : Tens5) : ℕ :=
  ((((x.getD 0 []).getD 0 []).getD 0 []).getD 0 []).length

/-- Multiply the slices of one position's packed (3, heads, head_dim) nest
by the broadcast scale tensor of the source: slices `0`, `1` (all but the
last of the three) by `s`, slice `2` by `1`. -/
def scaleSlices (s : ℝ) (slices : List (List FVec)) : List (List FVec) :=
  slices.enum.map (fun p => p.2.map (smulVec (if p.1 < 2 then s else 1)))

/-- Apply the source's packed scale factor to a (batch, seq, 3, heads,
head_dim) tensor: `qkv * scale_factor` with the Q and K slices scaled. -/
def qkvScale (s : ℝ) (x : Tens5) : Tens5 :=
  x.map (fun b => b.map (scaleSlices s))

/-- The slice of index `i` along the packing axis of a packed tensor:
`qkv.unbind(2)` components. -/
def slice5 (i : ℕ) (x : Tens5) : Tens4 :=
  x.map (fun b => b.map (fun slices => slices.getD i []))

/-- Modelled from the spec: the packed sigmoid attention kernel
`flash_exp.flash_attn_qkvpacked_func`, the unpacked kernel on the three
slices of the packed tensor (missing source: the external `flash_exp`
kernel). -/
noncomputable def flashAttnSigmoidQkvpackedFunc (softmaxScale : Option ℝ)
    (sb attnDrop : ℝ) (win : ℤ × ℤ) (al : Option (List ℝ)) (causal : Bool)
    (qkv : Tens5) : Tens4 :=
  flashAttnSigmoidFunc softmaxScale sb attnDrop win al causal
    (slice5 0 qkv) (slice5 1 qkv) (slice5 2 qkv)

/-- The fused attn helper `fused_sigmoid_flash2_attn` of the source: with
`prescale` it multiplies the packed tensor by the broadcast scale factor
(`head_dim ^ (-1/4)` on the Q and K slices, `1` on the V slice) and calls
the packed kernel with `softmax_scale = 1.0`. -/
noncomputable def fused_sigmoid_flash2_attn (qkv : Tens5) (sigmoid_bias : ℝ)
    (attn_drop : ℝ) (window_size : ℤ × ℤ) (alibi_slopes : Option (List ℝ))
    (causal : Bool) (prescale : Bool) : Tens3 :=
  let scale_factor := (headDimT5 qkv : ℝ) ^ (-(1 / 4) : ℝ)
  flatten2 (flashAttnSigmoidQkvpackedFunc
    (if prescale then some 1 else none)
    sigmoid_bias attn_drop window_size alibi_slopes causal
    (if prescale then qkvScale scale_factor qkv else qkv))

/-- A tensor annotated with its numeric dtype (an abstract label). -/
structure DTensor (α : Type) where
  dtype : ℕ
  data : α

/-- The dtype cast `torch.Tensor.to(dtype)`: relabel the tensor (values are
exact reals in this idealization). -/
def DTensor.to {α : Type} (x : DTensor α) (d : ℕ) : DTensor α := ⟨d, x.data⟩

/-- A linear projection layer: a weight matrix (one row per output feature)
and a bias vector. -/
structure LinLayer where
  weight : List FVec
  bias : List ℝ

/-- Apply a linear layer to one feature vector. -/
def LinLayer.apply1 (l : LinLayer) (x : FVec) : FVec :=
  (List.range l.weight.length).map (fun o =>
    dotVec (l.weight.getD o []) x + l.bias.getD o 0)

/-- Apply a linear layer along the feature axis of a (batch, seq, feature)
tensor. -/
def applyLin3 (l : LinLayer) (x : Tens3) : Tens3 :=
  x.map (fun s => s.map l.apply1)

/-- Apply a linear layer to a dtype-annotated tensor (the projection keeps
the input's dtype). -/
def applyLinDT3 (l : LinLayer) (x : DTensor Tens3) : DTensor Tens3 :=
  ⟨x.dtype, applyLin3 l x.data⟩

/-- The type of the optional `qk_transform` callable (for example RoPE): it
maps `(q, k, q_pos_offset, k_pos_offset)` to transformed `(q, k)`. -/
abbrev TransformFn := DTensor Tens4 → DTensor Tens4 → ℕ → ℕ →
  DTensor Tens4 × DTensor Tens4

/-- The type of the `which_flash_attn` callable as the layers invoke it:
arguments `(q, k, v, attn_drop, causal, window_size, alibi_slopes,
sigmoid_bias)`. -/
abbrev KernelFn := DTensor Tens4 → DTensor Tens4 → DTensor Tens4 →
  ℝ → Bool → ℤ × ℤ → Option (List ℝ) → ℝ → Tens3

/-- The default `which_flash_attn` of both layers: `flash2_sigmoid_attn`
with its default `prescale = True`, on the data of the dtype-annotated
tensors. -/
noncomputable def flash2KernelDT : KernelFn := fun q k v attn_drop causal window_size
    alibi_slopes sigmoid_bias =>
  flash2_sigmoid_attn q.data k.data v.data sigmoid_bias attn_drop window_size
    alibi_slopes causal true

/-- The output record of a forward call: exactly the two fields the source
returns. -/
structure AttnOutput where
  attn_times_v : Tens3
  attn_proj : Tens3

/-- The error a layer constructor raises: the divisibility `assert` of
`__init__` (spec: `ConfigurationError`). -/
inductive LayerError where
  | configuration
deriving DecidableEq

/-- The heads `h`, `h+1`, ..., slice `s` of the packing axis, of one
position's feature vector reshaped to `(slices, num_heads, head_dim)`:
the source's `reshape` followed by `unbind(2)` reads head `h` of slice `s`
at flat offset `s * (num_heads * head_dim) + h * head_dim`. -/
def sliceHeads (s nh hd : ℕ) (vec : FVec) : List FVec :=
  (List.range nh).map (fun h => (vec.drop (s * (nh * hd) + h * hd)).take hd)

/-- The state of a constructed `FlashSigmoidAttention` layer: the policy
fields and the layers/callables its `__init__` assigns. -/
structure FlashSigmoidAttention where
  causal : Bool
  num_heads : ℕ
  qk_norm : Bool
  window_size : ℤ × ℤ
  alibi_slopes : Option (List ℝ)
  head_dim : ℕ
  sigmoid_bias : ℝ
  which_flash_attn : KernelFn
  qk_transform : Option TransformFn
  qkv : LinLayer
  q_norm : DTensor Tens4 → DTensor Tens4
  k_norm : DTensor Tens4 → DTensor Tens4
  proj : LinLayer
  attn_drop : ℝ
  proj_drop : Tens3 → Tens3

/-- The field assignments of `FlashSigmoidAttention.__init__` (after its
divisibility assert).  `norm_layer`, `which_linear` and `dropout_impl`
(`nn.Dropout`) are the external primitives the constructor instantiates. -/
def mkSelfAttention (dim : ℕ) (sigmoid_bias : ℝ) (causal : Bool) (num_heads : ℕ)
    (bias : Bool) (qk_norm : Bool) (attn_drop proj_drop : ℝ)
    (window_size : ℤ × ℤ) (alibi_slopes : Option (List ℝ))
    (norm_layer : ℕ → DTensor Tens4 → DTensor Tens4)
    (which_linear : ℕ → ℕ → Bool → LinLayer)
    (qk_transform : Option TransformFn) (which_flash_attn : KernelFn)
    (dropout_impl : ℝ → Tens3 → Tens3) : FlashSigmoidAttention :=
  { causal := causal
    num_heads := num_heads
    qk_norm := qk_norm
    window_size := window_size
    alibi_slopes := alibi_slopes
    head_dim := dim / num_heads
    sigmoid_bias := sigmoid_bias
    which_flash_attn := which_flash_attn
    qk_transform := qk_transform
    qkv := which_linear dim (dim * 3) bias
    q_norm := if qk_norm then norm_layer (dim / num_heads) else id
    k_norm := if qk_norm then norm_layer (dim / num_heads) else id
    proj := which_linear dim dim bias
    attn_drop := attn_drop
    proj_drop := dropout_impl proj_drop }

/-- `FlashSigmoidAttention.__init__`: the `assert dim % num_heads == 0`
guard, then the field assignments. -/
def FlashSigmoidAttention.init (dim : ℕ) (sigmoid_bias : ℝ) (causal : Bool)
    (num_heads : ℕ) (bias : Bool) (qk_norm : Bool) (attn_drop proj_drop : ℝ)
    (window_size : ℤ × ℤ) (alibi_slopes : Option (List ℝ))
    (norm_layer : ℕ → DTensor Tens4 → DTensor Tens4)
    (which_linear : ℕ → ℕ → Bool → LinLayer)
    (qk_transform : Option TransformFn) (which_flash_attn : KernelFn)
    (dropout_impl : ℝ → Tens3 → Tens3) :
    Except LayerError FlashSigmoidAttention :=
  if dim % num_heads = 0 then
    .ok (mkSelfAttention dim sigmoid_bias causal num_heads bias qk_norm
      attn_drop proj_drop window_size alibi_slopes norm_layer which_linear
      qk_transform which_flash_attn dropout_impl)
  else .error .configuration

/-- Lines 193–195 of the source: project `x` with the fused QKV map,
reshape to `(B, N, 3, num_heads, C // num_heads)` (with `C` the feature
width of the input as read from `x.shape`) and unbind into `(q, k, v)`. -/
def selfProjSplit (l : FlashSigmoidAttention) (x : DTensor Tens3) :
    DTensor Tens4 × DTensor Tens4 × DTensor Tens4 :=
  let c := ((x.data.getD 0 []).getD 0 []).length
  let hd := c / l.num_heads
  let qkv := applyLinDT3 l.qkv x
  (⟨qkv.dtype, qkv.data.map (fun s => s.map (sliceHeads 0 l.num_heads hd))⟩,
   ⟨qkv.dtype, qkv.data.map (fun s => s.map (sliceHeads 1 l.num_heads hd))⟩,
   ⟨qkv.dtype, qkv.data.map (fun s => s.map (sliceHeads 2 l.num_heads hd))⟩)

/-- Lines 193–209 of `FlashSigmoidAttention.forward`: the `(q, k, v)`
triple the layer passes to `which_flash_attn` — QK norm on `q` and `k`
only, the optional `qk_transform` at position offsets `(0, 0)`, and the
cast of `q` and `k` to `v`'s dtype. -/
def FlashSigmoidAttention.kernelInput (l : FlashSigmoidAttention)
    (x : DTensor Tens3) : DTensor Tens4 × DTensor Tens4 × DTensor Tens4 :=
  let q0 := (selfProjSplit l x).1
  let k0 := (selfProjSplit l x).2.1
  let v0 := (selfProjSplit l x).2.2
  let q1 := l.q_norm q0
  let k1 := l.k_norm k0
  let qk := match l.qk_transform with
    | none => (q1, k1)
    | some f => f q1 k1 0 0
  (qk.1.to v0.dtype, qk.2.to v0.dtype, v0)

/-- `FlashSigmoidAttention.forward`: invoke `which_flash_attn` on the
kernel input with the layer's policy, then output projection and dropout;
extra keyword arguments are accepted and unused. -/
def FlashSigmoidAttention.forward {κ : Type} (l : FlashSigmoidAttention)
    (x : DTensor Tens3) (_unused_kwargs : κ) : AttnOutput :=
  let args := l.kernelInput x
  let attn_times_v := l.which_flash_attn args.1 args.2.1 args.2.2
    l.attn_drop l.causal l.window_size l.alibi_slopes l.sigmoid_bias
  { attn_times_v := attn_times_v
    attn_proj := l.proj_drop (applyLin3 l.proj attn_times_v) }

/-- The state of a constructed `FlashSigmoidCrossAttention` layer. -/
structure FlashSigmoidCrossAttention where
  causal : Bool
  num_heads : ℕ
  qk_norm : Bool
  window_size : ℤ × ℤ
  alibi_slopes : Option (List ℝ)
  head_dim_q : ℕ
  head_dim_kv : ℕ
  sigmoid_bias : ℝ
  which_flash_attn : KernelFn
  qk_transform : Option TransformFn
  q_proj : LinLayer
  kv_proj : LinLayer
  q_norm : DTensor Tens4 → DTensor Tens4
  k_norm : DTensor Tens4 → DTensor Tens4
  v_norm : DTensor Tens4 → DTensor Tens4
  proj : LinLayer
  attn_drop : ℝ
  proj_drop : Tens3 → Tens3

/-- The field assignments of `FlashSigmoidCrossAttention.__init__` (after
its divisibility assert): separate Q and fused KV projections, QK norm
conditional on the flag, `v_norm` unconditional, output projection from
`kv_dim` to `q_dim`. -/
def mkCrossAttention (q_dim kv_dim : ℕ) (sigmoid_bias : ℝ) (causal : Bool)
    (num_heads : ℕ) (bias : Bool) (qk_norm : Bool) (attn_drop proj_drop : ℝ)
    (window_size : ℤ × ℤ) (alibi_slopes : Option (List ℝ))
    (norm_layer : ℕ → DTensor Tens4 → DTensor Tens4)
    (which_linear : ℕ → ℕ → Bool → LinLayer)
    (qk_transform : Option TransformFn) (which_flash_attn : KernelFn)
    (dropout_impl : ℝ → Tens3 → Tens3) : FlashSigmoidCrossAttention :=
  { causal := causal
    num_heads := num_heads
    qk_norm := qk_norm
    window_size := window_size
    alibi_slopes := alibi_slopes
    head_dim_q := q_dim / num_heads
    head_dim_kv := kv_dim / num_heads
    sigmoid_bias := sigmoid_bias
    which_flash_attn := which_flash_attn
    qk_transform := qk_transform
    q_proj := which_linear q_dim q_dim bias
    kv_proj := which_linear kv_dim (kv_dim * 2) bias
    q_norm := if qk_norm then norm_layer (q_dim / num_heads) else id
    k_norm := if qk_norm then norm_layer (kv_dim / num_heads) else id
    v_norm := norm_layer (kv_dim / num_heads)
    proj := which_linear kv_dim q_dim bias
    attn_drop := attn_drop
    proj_drop := dropout_impl proj_drop }

/-- `FlashSigmoidCrossAttention.__init__`: the
`assert q_dim % num_heads == 0 and kv_dim % num_heads == 0` guard, then
the field assignments. -/
def FlashSigmoidCrossAttention.init (q_dim kv_dim : ℕ) (sigmoid_bias : ℝ)
    (causal : Bool) (num_heads : ℕ) (bias : Bool) (qk_norm : Bool)
    (attn_drop proj_drop : ℝ) (window_size : ℤ × ℤ)
    (alibi_slopes : Option (List ℝ))
    (norm_layer : ℕ → DTensor Tens4 → DTensor Tens4)
    (which_linear : ℕ → ℕ → Bool → LinLayer)
    (qk_transform : Option TransformFn) (which_flash_attn : KernelFn)
    (dropout_impl : ℝ → Tens3 → Tens3) :
    Except LayerError FlashSigmoidCrossAttention :=
  if q_dim % num_heads = 0 ∧ kv_dim % num_heads = 0 then
    .ok (mkCrossAttention q_dim kv_dim sigmoid_bias causal num_heads bias
      qk_norm attn_drop proj_drop window_size alibi_slopes norm_layer
      which_linear qk_transform which_flash_attn dropout_impl)
  else .error .configuration

/-- Lines 322–327 of the source: project `q` and reshape to
`(B, seq_q, num_heads, head_dim_q)`; project `kv`, reshape to
`(B, seq_kv, 2, num_heads, head_dim_kv)` and unbind into `(k, v)`. -/
def crossProjSplit (l : FlashSigmoidCrossAttention) (q kv : DTensor Tens3) :
    DTensor Tens4 × DTensor Tens4 × DTensor Tens4 :=
  let qp := applyLinDT3 l.q_proj q
  let kvp := applyLinDT3 l.kv_proj kv
  (⟨qp.dtype, qp.data.map (fun s => s.map (sliceHeads 0 l.num_heads l.head_dim_q))⟩,
   ⟨kvp.dtype, kvp.data.map (fun s => s.map (sliceHeads 0 l.num_heads l.head_dim_kv))⟩,
   ⟨kvp.dtype, kvp.data.map (fun s => s.map (sliceHeads 1 l.num_heads l.head_dim_kv))⟩)

/-- Lines 322–339 of `FlashSigmoidCrossAttention.forward`: the `(q, k, v)`
triple the layer passes to `which_flash_attn` — QK norm on `q` and `k`,
the unconditional `v_norm` on `v`, the optional `qk_transform` at position
offsets `(0, 0)`, and the cast of `q` and `k` to `v`'s dtype. -/
def FlashSigmoidCrossAttention.kernelInput (l : FlashSigmoidCrossAttention)
    (q kv : DTensor Tens3) : DTensor Tens4 × DTensor Tens4 × DTensor Tens4 :=
  let q0 := (crossProjSplit l q kv).1
  let k0 := (crossProjSplit l q kv).2.1
  let v0 := (crossProjSplit l q kv).2.2
  let q1 := l.q_norm q0
  let k1 := l.k_norm k0
  let v1 := l.v_norm v0
  let qk := match l.qk_transform with
    | none => (q1, k1)
    | some f => f q1 k1 0 0
  (qk.1.to v1.dtype, qk.2.to v1.dtype, v1)

/-- `FlashSigmoidCrossAttention.forward`: invoke `which_flash_attn` on the
kernel input with the layer's policy, then output projection and dropout;
extra keyword arguments are accepted and unused. -/
def FlashSigmoidCrossAttention.forward {κ : Type} (l : FlashSigmoidCrossAttention)
    (q kv : DTensor Tens3) (_unused_kwargs : κ) : AttnOutput :=
  let args := l.kernelInput q kv
  let attn_times_v := l.which_flash_attn args.1 args.2.1 args.2.2
    l.attn_drop l.causal l.window_size l.alibi_slopes l.sigmoid_bias
  { attn_times_v := attn_times_v
    attn_proj := l.proj_drop (applyLin3 l.proj attn_times_v) }

/-- A shape-preserving normalization stand-in (identity), used to
instantiate the `norm_layer` slot in concrete checks. -/
def idNorm : ℕ → DTensor Tens4 → DTensor Tens4 := fun _ t => t

/-- A concrete `which_linear` stand-in with the `nn.Linear` shape contract:
weight of `out` rows of length `in`, bias of length `out`. -/
def onesLinear : ℕ → ℕ → Bool → LinLayer := fun i o _ =>
  ⟨List.replicate o (List.replicate i 1), List.replicate o 0⟩

/-- A deterministic dropout stand-in (identity), used to instantiate the
`nn.Dropout` slot in concrete checks. -/
def idDropout : ℝ → Tens3 → Tens3 := fun _ t => t

/-- A `qk_transform` that passes `q` and `k` through unchanged at every
offset. -/
def passTransform : TransformFn := fun q k _ _ => (q, k)

/-- A `qk_transform` that agrees with `passTransform` at query offset `0`
but swaps the streams elsewhere. -/
def passTransformAt0 : TransformFn := fun q k i _ =>
  if i = 0 then (q, k) else (k, q)

/-- A concrete one-batch, one-position, one-feature input tensor. -/
def sampleX : DTensor Tens3 := ⟨0, [[[1]]]⟩

/-- A concrete one-batch, one-position, two-feature input tensor. -/
def sampleKV : DTensor Tens3 := ⟨0, [[[1, 1]]]⟩

/-- Batch and sequence lengths of a (batch, seq, feature) tensor. -/
def wfBN (b n : ℕ) (x : Tens3) : Prop :=
  x.length = b ∧ ∀ s ∈ x, s.length = n

/-- Well-formedness of a (batch, seq, feature) tensor: the batch, sequence
and feature extents. -/
def wf3 (b n c : ℕ) (x : Tens3) : Prop :=
  x.length = b ∧ ∀ s ∈ x, s.length = n ∧ ∀ u ∈ s, u.length = c

/-- Well-formedness of a (batch, seq, heads, head_dim) tensor. -/
def wf4 (b n h d : ℕ) (x : Tens4) : Prop :=
  x.length = b ∧ ∀ s ∈ x, s.length = n ∧ ∀ u ∈ s,
    u.length = h ∧ ∀ w ∈ u, w.length = d

/-- C10: the forward methods of both layers accept arbitrary extra keyword
arguments and ignore them — with everything else (layer state, inputs,
dropout draw) fixed, the output record does not depend on the extras. -/
theorem c10_extra_kwargs_ignored {α β : Type} (kw1 : α) (kw2 : β)
    (l : FlashSigmoidAttention) (lc : FlashSigmoidCrossAttention)
    (x qin kvin : DTensor Tens3) :
    l.forward x kw1 = l.forward x kw2 ∧
    lc.forward qin kvin kw1 = lc.forward qin kvin kw2 :=
  ⟨rfl, rfl⟩

/-- C9: every forward call of either layer returns the two-field output
record whose `attn_times_v` is the kernel's weighted-value result on the
layer's kernel input and policy, and whose `attn_proj` is the output
projection followed by dropout applied to `attn_times_v`. -/
theorem c9_output_record {α : Type} (kw : α) (l : FlashSigmoidAttention)
    (lc : FlashSigmoidCrossAttention) (x qin kvin : DTensor Tens3) :
    (l.forward x kw).attn_proj
      = l.proj_drop (applyLin3 l.proj (l.forward x kw).attn_times_v) ∧
    (l.forward x kw).attn_times_v
      = l.which_flash_attn (l.kernelInput x).1 (l.kernelInput x).2.1
          (l.kernelInput x).2.2 l.attn_drop l.causal l.window_size
          l.alibi_slopes l.sigmoid_bias ∧
    (lc.forward qin kvin kw).attn_proj
      = lc.proj_drop (applyLin3 lc.proj (lc.forward qin kvin kw).attn_times_v) ∧
    (lc.forward qin kvin kw).attn_times_v
      = lc.which_flash_attn (lc.kernelInput qin kvin).1
          (lc.kernelInput qin kvin).2.1 (lc.kernelInput qin kvin).2.2
          lc.attn_drop lc.causal lc.window_size lc.alibi_slopes
          lc.sigmoid_bias :=
  ⟨rfl, rfl, rfl, rfl⟩

/-- C7: in both layers, the `q` and `k` the forward passes to the
attention kernel carry `v`'s dtype (the cast happens after normalization
and the optional positional transform, at the kernel call); in
self-attention `v` keeps the input's dtype untouched, and in
cross-attention `v` is passed exactly as `v_norm` produced it, with no
dtype cast applied to it. -/
theorem c7_qk_cast_to_v_dtype (l : FlashSigmoidAttention)
    (lc : FlashSigmoidCrossAttention) (x qin kvin : DTensor Tens3) :
    (l.kernelInput x).1.dtype = (l.kernelInput x).2.2.dtype ∧
    (l.kernelInput x).2.1.dtype = (l.kernelInput x).2.2.dtype ∧
    (l.kernelInput x).2.2.dtype = x.dtype ∧
    (lc.kernelInput qin kvin).1.dtype = (lc.kernelInput qin kvin).2.2.dtype ∧
    (lc.kernelInput qin kvin).2.1.dtype = (lc.kernelInput qin kvin).2.2.dtype ∧
    (lc.kernelInput qin kvin).2.2
      = lc.v_norm ((crossProjSplit lc qin kvin).2.2) :=
  ⟨rfl, rfl, rfl, rfl, rfl, rfl⟩

/-- C2: in `FlashSigmoidAttention.forward` with `qk_norm = true` the `v`
passed to the kernel is the raw projected V slice — it does not depend on
the normalization layer at all (only `q` and `k` are normalized); in
`FlashSigmoidCrossAttention.forward` the `v` passed to the kernel is the
`v_norm` layer applied to the projected V slice, and `v_norm` is the
normalization layer (at `head_dim_kv`) regardless of the `qk_norm` flag. -/
theorem c2_v_normalization_asymmetry (dim q_dim kv_dim : ℕ) (sb : ℝ)
    (causal : Bool) (nh : ℕ) (bias b : Bool) (ad pd : ℝ) (win : ℤ × ℤ)
    (al : Option (List ℝ)) (nl nl2 : ℕ → DTensor Tens4 → DTensor Tens4)
    (wl : ℕ → ℕ → Bool → LinLayer) (xf : Option TransformFn) (κ : KernelFn)
    (dr : ℝ → Tens3 → Tens3) (x qin kvin : DTensor Tens3) :
    ((mkSelfAttention dim sb causal nh bias true ad pd win al nl wl xf κ dr).kernelInput x).2.2
      = ((mkSelfAttention dim sb causal nh bias true ad pd win al nl2 wl xf κ dr).kernelInput x).2.2 ∧
    ((mkSelfAttention dim sb causal nh bias true ad pd win al nl wl xf κ dr).kernelInput x).2.2
      = (selfProjSplit (mkSelfAttention dim sb causal nh bias true ad pd win al nl wl xf κ dr) x).2.2 ∧
    ((mkCrossAttention q_dim kv_dim sb causal nh bias b ad pd win al nl wl xf κ dr).kernelInput qin kvin).2.2
      = (mkCrossAttention q_dim kv_dim sb causal nh bias b ad pd win al nl wl xf κ dr).v_norm
          ((crossProjSplit (mkCrossAttention q_dim kv_dim sb causal nh bias b ad pd win al nl wl xf κ dr) qin kvin).2.2) ∧
    (mkCrossAttention q_dim kv_dim sb causal nh bias b ad pd win al nl wl xf κ dr).v_norm
      = nl (kv_dim / nh) :=
  ⟨rfl, rfl, rfl, rfl⟩

/-- C8: in both layers' forward, a configured `qk_transform` is applied to
`(q, k)` at query and key position offsets `(0, 0)` — two transforms that
agree at offsets `(0, 0)` give the same kernel input — and an absent
transform behaves exactly as a pass-through of `(q, k)`. -/
theorem c8_transform_offsets_zero (dim q_dim kv_dim : ℕ) (sb : ℝ)
    (causal : Bool) (nh : ℕ) (bias bq : Bool) (ad pd : ℝ) (win : ℤ × ℤ)
    (al : Option (List ℝ)) (nl : ℕ → DTensor Tens4 → DTensor Tens4)
    (wl : ℕ → ℕ → Bool → LinLayer) (κ : KernelFn) (dr : ℝ → Tens3 → Tens3)
    (x qin kvin : DTensor Tens3) (f g : TransformFn)
    (h : ∀ q k, f q k 0 0 = g q k 0 0) :
    (mkSelfAttention dim sb causal nh bias bq ad pd win al nl wl (some f) κ dr).kernelInput x
      = (mkSelfAttention dim sb causal nh bias bq ad pd win al nl wl (some g) κ dr).kernelInput x ∧
    (mkSelfAttention dim sb causal nh bias bq ad pd win al nl wl none κ dr).kernelInput x
      = (mkSelfAttention dim sb causal nh bias bq ad pd win al nl wl (some passTransform) κ dr).kernelInput x ∧
    (mkCrossAttention q_dim kv_dim sb causal nh bias bq ad pd win al nl wl (some f) κ dr).kernelInput qin kvin
      = (mkCrossAttention q_dim kv_dim sb causal nh bias bq ad pd win al nl wl (some g) κ dr).kernelInput qin kvin ∧
    (mkCrossAttention q_dim kv_dim sb causal nh bias bq ad pd win al nl wl none κ dr).kernelInput qin kvin
      = (mkCrossAttention q_dim kv_dim sb causal nh bias bq ad pd win al nl wl (some passTransform) κ dr).kernelInput qin kvin := by
  refine ⟨?_, rfl, ?_, rfl⟩
  · unfold FlashSigmoidAttention.kernelInput
    rw [show (mkSelfAttention dim sb causal nh bias bq ad pd win al nl wl
      (some f) κ dr).qk_transform = some f from rfl]
    rw [show (mkSelfAttention dim sb causal nh bias bq ad pd win al nl wl
      (some g) κ dr).qk_transform = some g from rfl]
    simp only
    rw [h]
    exact rfl
  · unfold FlashSigmoidCrossAttention.kernelInput
    rw [show (mkCrossAttention q_dim kv_dim sb causal nh bias bq ad pd win al nl wl
      (some f) κ dr).qk_transform = some f from rfl]
    rw [show (mkCrossAttention q_dim kv_dim sb causal nh bias bq ad pd win al nl wl
      (some g) κ dr).qk_transform = some g from rfl]
    simp only
    rw [h]
    exact rfl

/-- C8 witness: at a concrete layer, input and pair of transforms agreeing
at offsets `(0, 0)`, the kernel inputs coincide. -/
theorem c8_transform_offsets_zero_witness :
    (mkSelfAttention 1 0 true 1 false true 0 0 (-1, -1) none idNorm onesLinear
        (some passTransform) flash2KernelDT idDropout).kernelInput sampleX
      = (mkSelfAttention 1 0 true 1 false true 0 0 (-1, -1) none idNorm onesLinear
        (some passTransformAt0) flash2KernelDT idDropout).kernelInput sampleX :=
  (c8_transform_offsets_zero 1 1 2 0 true 1 false true 0 0 (-1, -1) none idNorm
    onesLinear flash2KernelDT idDropout sampleX sampleX sampleKV passTransform
    passTransformAt0 (fun q k => by simp [passTransform, passTransformAt0])).1

/-- C5: with a positive head count (the divisibility test itself divides
by `num_heads`), self-attention construction succeeds exactly when
`dim % num_heads == 0` and otherwise fails at construction time with the
configuration error; cross-attention construction succeeds exactly when
both `q_dim` and `kv_dim` are divisible by `num_heads` and otherwise
fails at construction time with the configuration error. -/
theorem c5_construction_divisibility (dim q_dim kv_dim nh : ℕ)
    (_hpos : 0 < nh) (sb : ℝ) (causal : Bool) (bias bq : Bool) (ad pd : ℝ)
    (win : ℤ × ℤ) (al : Option (List ℝ))
    (nl : ℕ → DTensor Tens4 → DTensor Tens4) (wl : ℕ → ℕ → Bool → LinLayer)
    (xf : Option TransformFn) (κ : KernelFn) (dr : ℝ → Tens3 → Tens3) :
    (dim % nh = 0 →
      FlashSigmoidAttention.init dim sb causal nh bias bq ad pd win al nl wl xf κ dr
        = .ok (mkSelfAttention dim sb causal nh bias bq ad pd win al nl wl xf κ dr)) ∧
    (dim % nh ≠ 0 →
      FlashSigmoidAttention.init dim sb causal nh bias bq ad pd win al nl wl xf κ dr
        = .error .configuration) ∧
    (q_dim % nh = 0 ∧ kv_dim % nh = 0 →
      FlashSigmoidCrossAttention.init q_dim kv_dim sb causal nh bias bq ad pd win al nl wl xf κ dr
        = .ok (mkCrossAttention q_dim kv_dim sb causal nh bias bq ad pd win al nl wl xf κ dr)) ∧
    (¬(q_dim % nh = 0 ∧ kv_dim % nh = 0) →
      FlashSigmoidCrossAttention.init q_dim kv_dim sb causal nh bias bq ad pd win al nl wl xf κ dr
        = .error .configuration) := by
  refine ⟨fun h1 => ?_, fun h1 => ?_, fun h1 => ?_, fun h1 => ?_⟩
  · unfold FlashSigmoidAttention.init
    rw [if_pos h1]
  · unfold FlashSigmoidAttention.init
    rw [if_neg h1]
  · unfold FlashSigmoidCrossAttention.init
    rw [if_pos h1]
  · unfold FlashSigmoidCrossAttention.init
    rw [if_neg h1]

/-- C5 witness: at `dim = 6`, `num_heads = 3` construction succeeds, and
the failure clauses are discharged at `q_dim = 5`, `kv_dim = 6`. -/
theorem c5_construction_divisibility_witness :
    FlashSigmoidAttention.init 6 0 true 3 false false 0 0 (-1, -1) none idNorm
        onesLinear none flash2KernelDT idDropout
      = .ok (mkSelfAttention 6 0 true 3 false false 0 0 (-1, -1) none idNorm
        onesLinear none flash2KernelDT idDropout) ∧
    FlashSigmoidCrossAttention.init 5 6 0 true 3 false false 0 0 (-1, -1) none
        idNorm onesLinear none flash2KernelDT idDropout
      = .error .configuration :=
  ⟨(c5_construction_divisibility 6 5 6 3 (by decide) 0 true false false 0 0
      (-1, -1) none idNorm onesLinear none flash2KernelDT idDropout).1
      (by decide),
   (c5_construction_divisibility 6 5 6 3 (by decide) 0 true false false 0 0
      (-1, -1) none idNorm onesLinear none flash2KernelDT idDropout).2.2.2
      (by decide)⟩

/-- Reading an index off a mapped list commutes with the map when the map
sends the default to the default. -/
theorem getD_map_nil {α β : Type} (f : α → β) (da : α) (db : β)
    (h : f da = db) (l : List α) (n : ℕ) :
    (l.map f).getD n db = f (l.getD n da) := by
  rcases lt_or_ge n l.length with hn | hn
  · rw [List.getD_eq_getElem _ _ (by simpa using hn),
      List.getD_eq_getElem _ _ hn, List.getElem_map]
  · rw [List.getD_eq_default _ _ (by simpa using hn),
      List.getD_eq_default _ _ hn, h]

/-- Scaling a feature vector by `1` leaves it unchanged. -/
theorem smulVec_one (v : FVec) : smulVec 1 v = v := by
  simp [smulVec]

/-- The packing-axis slice of index `i` of the source's broadcast
multiplication: the slice scaled by `s` when `i < 2`, by `1` otherwise. -/
theorem scaleSlices_getD (s : ℝ) (l : List (List FVec)) (i : ℕ) :
    (scaleSlices s l).getD i []
      = (l.getD i []).map (smulVec (if i < 2 then s else 1)) := by
  rcases lt_or_ge i l.length with hn | hn
  · rw [List.getD_eq_getElem _ _ (by simpa [scaleSlices] using hn),
      List.getD_eq_getElem _ _ hn]
    simp [scaleSlices]
  · rw [List.getD_eq_default _ _ (by simpa [scaleSlices] using hn),
      List.getD_eq_default _ _ hn]
    simp

/-- The V slice (index `2` on the packing axis) of the scaled packed
tensor is the original V slice. -/
theorem slice5_qkvScale_v (s : ℝ) (x : Tens5) :
    slice5 2 (qkvScale s x) = slice5 2 x := by
  unfold slice5 qkvScale
  rw [List.map_map]
  refine List.map_congr_left (fun b _ => ?_)
  simp only [Function.comp_apply]
  rw [List.map_map]
  refine List.map_congr_left (fun n _ => ?_)
  simp only [Function.comp_apply]
  rw [scaleSlices_getD, if_neg (by decide)]
  rw [List.map_congr_left (fun u _ => smulVec_one u)]
  simp

/-- The Q or K slice (index `i < 2` on the packing axis) of the scaled
packed tensor is the scaled original slice. -/
theorem slice5_qkvScale_qk (s : ℝ) (x : Tens5) (i : ℕ) (hi : i < 2) :
    slice5 i (qkvScale s x) = scaleT4 s (slice5 i x) := by
  unfold slice5 qkvScale scaleT4
  rw [List.map_map, List.map_map]
  refine List.map_congr_left (fun b _ => ?_)
  simp only [Function.comp_apply]
  rw [List.map_map, List.map_map]
  refine List.map_congr_left (fun n _ => ?_)
  simp only [Function.comp_apply]
  rw [scaleSlices_getD, if_pos hi]

/-- C4: in `fused_sigmoid_flash2_attn` with `prescale = true`, the
broadcast scale factor multiplies only the Q and K slices (indices 0 and
1 of the packing axis) by `head_dim ^ (-1/4)`; the V slice (index 2)
reaches the kernel unchanged. -/
theorem c4_fused_prescale_only_qk (qkv : Tens5) (s sb ad : ℝ)
    (win : ℤ × ℤ) (al : Option (List ℝ)) (causal : Bool) :
    slice5 2 (qkvScale s qkv) = slice5 2 qkv ∧
    slice5 0 (qkvScale s qkv) = scaleT4 s (slice5 0 qkv) ∧
    slice5 1 (qkvScale s qkv) = scaleT4 s (slice5 1 qkv) ∧
    fused_sigmoid_flash2_attn qkv sb ad win al causal true
      = flatten2 (flashAttnSigmoidFunc (some 1) sb ad win al causal
          (scaleT4 ((headDimT5 qkv : ℝ) ^ (-(1 / 4) : ℝ)) (slice5 0 qkv))
          (scaleT4 ((headDimT5 qkv : ℝ) ^ (-(1 / 4) : ℝ)) (slice5 1 qkv))
          (slice5 2 qkv)) := by
  refine ⟨slice5_qkvScale_v s qkv, slice5_qkvScale_qk s qkv 0 (by decide),
    slice5_qkvScale_qk s qkv 1 (by decide), ?_⟩
  show flatten2 (flashAttnSigmoidFunc (some 1) sb ad win al causal
    (slice5 0 (qkvScale ((headDimT5 qkv : ℝ) ^ (-(1 / 4) : ℝ)) qkv))
    (slice5 1 (qkvScale ((headDimT5 qkv : ℝ) ^ (-(1 / 4) : ℝ)) qkv))
    (slice5 2 (qkvScale ((headDimT5 qkv : ℝ) ^ (-(1 / 4) : ℝ)) qkv))) = _
  rw [slice5_qkvScale_v, slice5_qkvScale_qk _ _ 0 (by decide),
    slice5_qkvScale_qk _ _ 1 (by decide)]

/-- Dot product of two entrywise-scaled vectors pulls both scales out. -/
theorem dotVec_smul (s t : ℝ) (a b : FVec) :
    dotVec (smulVec s a) (smulVec t b) = s * t * dotVec a b := by
  induction a generalizing b with
  | nil => simp [dotVec, smulVec]
  | cons x xs ih =>
    cases b with
    | nil => simp [dotVec, smulVec]
    | cons y ys =>
      have h1 : dotVec (smulVec s (x :: xs)) (smulVec t (y :: ys))
          = s * x * (t * y) + dotVec (smulVec s xs) (smulVec t ys) := rfl
      have h2 : dotVec (x :: xs) (y :: ys) = x * y + dotVec xs ys := rfl
      rw [h1, h2, ih]
      ring

/-- Slicing out a head commutes with entrywise scaling of a batch
element. -/
theorem headSlice_scale (s : ℝ) (h : ℕ) (bb : List (List FVec)) :
    headSlice h (bb.map (fun n => n.map (smulVec s)))
      = (headSlice h bb).map (smulVec s) := by
  unfold headSlice
  rw [List.map_map, List.map_map]
  refine List.map_congr_left (fun n _ => ?_)
  simp only [Function.comp_apply]
  exact getD_map_nil (smulVec s) [] [] rfl n h

/-- Scaling `q` and `k` each by `s` and running the per-head kernel at
scale `1` equals running it on the raw `q`, `k` at scale `s * s`. -/
theorem refKernelBH_prescale (s slope sb : ℝ) (causal : Bool) (win : ℤ × ℤ)
    (q k v : List FVec) :
    refKernelBH 1 slope sb causal win (q.map (smulVec s)) (k.map (smulVec s)) v
      = refKernelBH (s * s) slope sb causal win q k v := by
  unfold refKernelBH
  rw [List.length_map, List.length_map]
  refine List.map_congr_left (fun i _ => ?_)
  congr 1
  refine List.filterMap_congr (fun j _ => ?_)
  rw [getD_map_nil (smulVec s) [] [] rfl q i, getD_map_nil (smulVec s) [] [] rfl k j]
  have harg : dotVec (smulVec s (q.getD i [])) (smulVec s (k.getD j [])) * 1
      = dotVec (q.getD i []) (k.getD j []) * (s * s) := by
    rw [dotVec_smul]
    ring
  rw [harg]

/-- The per-batch-element version of `refKernelBH_prescale`. -/
theorem refKernelB_prescale (s sb : ℝ) (al : Option (List ℝ)) (causal : Bool)
    (win : ℤ × ℤ) (qb kb vb : List (List FVec)) :
    refKernelB 1 sb al causal win (qb.map (fun n => n.map (smulVec s)))
        (kb.map (fun n => n.map (smulVec s))) vb
      = refKernelB (s * s) sb al causal win qb kb vb := by
  unfold refKernelB
  rw [List.length_map, getD_map_nil (fun n => n.map (smulVec s)) [] [] rfl qb 0,
    List.length_map]
  refine List.map_congr_left (fun i _ => ?_)
  refine List.map_congr_left (fun h _ => ?_)
  rw [headSlice_scale, headSlice_scale, refKernelBH_prescale]

/-- Pre-scaling `q` and `k` and calling the kernel at explicit scale `1`
equals calling the kernel on raw `q`, `k` at scale `s * s`. -/
theorem flashFunc_prescale (s sb ad : ℝ) (win : ℤ × ℤ) (al : Option (List ℝ))
    (causal : Bool) (q k v : Tens4) :
    flashAttnSigmoidFunc (some 1) sb ad win al causal
        (scaleT4 s q) (scaleT4 s k) v
      = flashAttnSigmoidFunc (some (s * s)) sb ad win al causal q k v := by
  unfold flashAttnSigmoidFunc scaleT4
  simp only [Option.getD_some, List.length_map]
  refine List.map_congr_left (fun b _ => ?_)
  rw [getD_map_nil (fun bb => bb.map (fun n => n.map (smulVec s))) [] [] rfl q b,
    getD_map_nil (fun bb => bb.map (fun n => n.map (smulVec s))) [] [] rfl k b,
    refKernelB_prescale]

/-- The square of `d ^ (-1/4)` is `d ^ (-1/2)`, for a natural `d`. -/
theorem rpow_quarter_sq (d : ℕ) :
    ((d : ℝ) ^ (-(1 / 4) : ℝ)) * ((d : ℝ) ^ (-(1 / 4) : ℝ))
      = (d : ℝ) ^ (-(1 / 2) : ℝ) := by
  rcases Nat.eq_zero_or_pos d with h | h
  · subst h
    push_cast
    rw [Real.zero_rpow (by norm_num), Real.zero_rpow (by norm_num)]
    ring
  · rw [← Real.rpow_add (by exact_mod_cast h)]
    norm_num

/-- C3: for identical `(q, k, v)` and policy, the `prescale = true` path
(`q`, `k` each scaled by `head_dim ^ (-1/4)`, kernel told scale `1.0`)
and the `prescale = false` path (raw `q`, `k`, kernel default scale)
produce the same output, and both equal the reference
`head_dim ^ (-1/2)` scaling of the raw dot product (exactly, in the
real-number idealization of float arithmetic). -/
theorem c3_prescale_equivalence (q k v : Tens4) (sb ad : ℝ) (win : ℤ × ℤ)
    (al : Option (List ℝ)) (causal : Bool) :
    flash2_sigmoid_attn q k v sb ad win al causal true
      = flash2_sigmoid_attn q k v sb ad win al causal false ∧
    flash2_sigmoid_attn q k v sb ad win al causal false
      = flatten2 (flashAttnSigmoidFunc
          (some ((headDimT4 q : ℝ) ^ (-(1 / 2) : ℝ))) sb ad win al causal
          q k v) := by
  constructor
  · show flatten2 (flashAttnSigmoidFunc (some 1) sb ad win al causal
        (scaleT4 ((headDimT4 q : ℝ) ^ (-(1 / 4) : ℝ)) q)
        (scaleT4 ((headDimT4 q : ℝ) ^ (-(1 / 4) : ℝ)) k) v)
      = flash2_sigmoid_attn q k v sb ad win al causal false
    rw [flashFunc_prescale, rpow_quarter_sq]
    rfl
  · rfl

/-- The length of a sum of vectors of common length `d` is `d`. -/
theorem sumVecs_length (d : ℕ) (l : List FVec) (h : ∀ u ∈ l, u.length = d) :
    (sumVecs d l).length = d := by
  induction l with
  | nil => simp [sumVecs]
  | cons u us ih =>
    have h1 : sumVecs d (u :: us) = vadd u (sumVecs d us) := rfl
    rw [h1, vadd, List.length_zipWith, h u (by simp),
      ih (fun w hw => h w (by simp [hw])), min_self]

/-- Reading an in-range entry of an entrywise vector sum. -/
theorem getD_vadd (a b : FVec) (i : ℕ) (ha : i < a.length)
    (hb : i < b.length) :
    (vadd a b).getD i 0 = a.getD i 0 + b.getD i 0 := by
  have hl : i < (vadd a b).length := by
    rw [vadd, List.length_zipWith]
    omega
  rw [List.getD_eq_getElem _ _ hl, List.getD_eq_getElem _ _ ha,
    List.getD_eq_getElem _ _ hb]
  simp [vadd, List.getElem_zipWith]

/-- An entry of a sum of common-length vectors is the sum of the
entries. -/
theorem getD_sumVecs (d : ℕ) (l : List FVec) (i : ℕ) (hd : i < d)
    (h : ∀ u ∈ l, u.length = d) :
    (sumVecs d l).getD i 0 = (l.map (fun u => u.getD i 0)).sum := by
  induction l with
  | nil =>
    rw [show sumVecs d [] = List.replicate d 0 from rfl,
      List.getD_eq_getElem _ _ (by simpa using hd), List.getElem_replicate]
    simp
  | cons u us ih =>
    have h1 : sumVecs d (u :: us) = vadd u (sumVecs d us) := rfl
    have hus : ∀ w ∈ us, w.length = d := fun w hw => h w (by simp [hw])
    rw [h1, getD_vadd u _ i (by rw [h u (by simp)]; exact hd)
      (by rw [sumVecs_length d us hus]; exact hd), ih hus]
    simp

/-- Reading an in-range entry of a scaled vector. -/
theorem getD_smulVec (c : ℝ) (u : FVec) (i : ℕ) (hi : i < u.length) :
    (smulVec c u).getD i 0 = c * u.getD i 0 := by
  rw [List.getD_eq_getElem _ _ (by simpa [smulVec] using hi),
    List.getD_eq_getElem _ _ hi]
  simp [smulVec]

/-- A guarded `filterMap` sum over `List.range` is the `Finset` sum over
the unmasked indices. -/
theorem filterMap_ite_sum (n : ℕ) (p : ℕ → Bool) (F : ℕ → ℝ) :
    ((List.range n).filterMap (fun j => if p j then none else some (F j))).sum
      = ∑ j ∈ (Finset.range n).filter (fun j => p j = false), F j := by
  induction n with
  | zero => simp
  | succ m ih =>
    rw [List.range_succ, List.filterMap_append, List.sum_append, ih,
      Finset.range_succ, Finset.filter_insert]
    cases hp : p m
    · rw [if_pos rfl, Finset.sum_insert (by simp)]
      simp [hp, add_comm]
    · rw [if_neg (by simp)]
      simp [hp]

/-- The row of query `i` in the per-head kernel output. -/
theorem refKernelBH_getD (scale slope sb : ℝ) (causal : Bool) (win : ℤ × ℤ)
    (q k v : List FVec) (i : ℕ) (hi : i < q.length) :
    (refKernelBH scale slope sb causal win q k v).getD i []
      = sumVecs (v.getD 0 []).length
          ((List.range k.length).filterMap (fun j =>
            if maskedAt causal win q.length k.length i j then none
            else some (smulVec
              (sigmoid (dotVec (q.getD i []) (k.getD j []) * scale
                + alibiBias slope q.length k.length i j + sb))
              (v.getD j [])))) := by
  unfold refKernelBH
  rw [List.getD_eq_getElem _ _ (by simpa using hi), List.getElem_map,
    List.getElem_range]

/-- Entry `d` of the output of query `i`: the sum, over exactly the
unmasked keys, of the sigmoid weight of that pair times the value
entry. -/
theorem refKernelBH_entry (scale slope sb : ℝ) (causal : Bool) (win : ℤ × ℤ)
    (q k v : List FVec) (dv i d : ℕ)
    (hv : ∀ u ∈ v, u.length = dv) (hkv : k.length = v.length)
    (hi : i < q.length) (hd : d < dv) :
    ((refKernelBH scale slope sb causal win q k v).getD i []).getD d 0
      = ∑ j ∈ (Finset.range k.length).filter
          (fun j => maskedAt causal win q.length k.length i j = false),
          sigmoid (dotVec (q.getD i []) (k.getD j []) * scale
              + alibiBias slope q.length k.length i j + sb)
            * (v.getD j []).getD d 0 := by
  rw [refKernelBH_getD scale slope sb causal win q k v i hi]
  rcases v with _ | ⟨u, us⟩
  · have hk0 : k.length = 0 := by simpa using hkv
    simp [hk0, sumVecs]
  · have hdv0 : (List.getD (u :: us) 0 []).length = dv := hv u (by simp)
    rw [hdv0]
    have hmem : ∀ w ∈ (List.range k.length).filterMap (fun j =>
        if maskedAt causal win q.length k.length i j then none
        else some (smulVec
          (sigmoid (dotVec (q.getD i []) (k.getD j []) * scale
            + alibiBias slope q.length k.length i j + sb))
          (List.getD (u :: us) j []))), w.length = dv := by
      intro w hw
      rcases List.mem_filterMap.mp hw with ⟨j, hj, hfj⟩
      rcases Decidable.em
        (maskedAt causal win q.length k.length i j = true) with hm | hm
      · rw [if_pos hm] at hfj
        cases hfj
      · rw [if_neg hm] at hfj
        have hw2 := Option.some.inj hfj
        have hjlen : j < (u :: us).length := by
          rw [← hkv]
          exact List.mem_range.mp hj
        rw [← hw2, smulVec, List.length_map,
          List.getD_eq_getElem _ _ hjlen]
        exact hv _ (List.getElem_mem hjlen)
    rw [getD_sumVecs dv _ d hd hmem, List.map_filterMap]
    have hcongr : ∀ j ∈ List.range k.length,
        Option.map (fun u2 => u2.getD d 0)
          (if maskedAt causal win q.length k.length i j then none
           else some (smulVec
             (sigmoid (dotVec (q.getD i []) (k.getD j []) * scale
               + alibiBias slope q.length k.length i j + sb))
             (List.getD (u :: us) j [])))
        = if maskedAt causal win q.length k.length i j then none
          else some
            (sigmoid (dotVec (q.getD i []) (k.getD j []) * scale
               + alibiBias slope q.length k.length i j + sb)
             * (List.getD (u :: us) j []).getD d 0) := by
      intro j hj
      have hjlen : j < (u :: us).length := by
        rw [← hkv]
        exact List.mem_range.mp hj
      have hulen : d < (List.getD (u :: us) j []).length := by
        rw [List.getD_eq_getElem _ _ hjlen, hv _ (List.getElem_mem hjlen)]
        exact hd
      rw [apply_ite (Option.map (fun u2 => List.getD u2 d 0))]
      rw [show Option.map (fun u2 => List.getD u2 d 0) (none : Option FVec)
        = none from rfl]
      rw [show ∀ w : FVec, Option.map (fun u2 => List.getD u2 d 0) (some w)
        = some (w.getD d 0) from fun w => rfl]
      rw [getD_smulVec _ _ _ hulen]
    rw [List.filterMap_congr hcongr, filterMap_ite_sum]

/-- The one-query, one-unmasked-key kernel instance at logit `0`: the
weight is `sigmoid(0) = 1/2`, so the output (with value `1`) is `1/2`,
not `1`. -/
theorem refKernelBH_single_key :
    ((refKernelBH 1 0 0 false (-1, -1) [[0]] [[1]] [[1]]).getD 0 []).getD 0 0
      = 1 / 2 := by
  have hs : sigmoid 0 = 1 / 2 := by
    rw [sigmoid, neg_zero, Real.exp_zero]
    norm_num
  rw [refKernelBH_entry 1 0 0 false (-1, -1) [[0]] [[1]] [[1]] 1 0 0
    (by intro u hu; rw [List.mem_singleton] at hu; subst hu; rfl)
    rfl (by simp) (by simp)]
  rw [show (Finset.range ([[(1 : ℝ)]] : List FVec).length).filter
      (fun j => maskedAt false (-1, -1) ([[(0 : ℝ)]] : List FVec).length
        ([[(1 : ℝ)]] : List FVec).length 0 j = false) = {0} from by decide]
  rw [Finset.sum_singleton]
  rw [show dotVec (([[(0 : ℝ)]] : List FVec).getD 0 [])
      (([[(1 : ℝ)]] : List FVec).getD 0 []) * 1
      + alibiBias 0 ([[(0 : ℝ)]] : List FVec).length
        ([[(1 : ℝ)]] : List FVec).length 0 0 + 0 = 0 from by
    simp [dotVec, alibiBias]]
  rw [hs]
  norm_num

/-- C1: for every unmasked (query `i`, key `j`) pair the weight the
kernel's weighted-aggregation step applies to `v_j` is
`sigmoid((q_i . k_j) * scale + alibi_bias(i, j) + sigmoid_bias)`, and
output entry `i` is the sum over exactly the unmasked keys of weight
times value — with no re-normalization across `j`: in the concrete
one-key unmasked instance at logit `0` the single weight is
`sigmoid(0) = 1/2`, not `1`. -/
theorem c1_sigmoid_weighting (scale slope sb : ℝ) (causal : Bool)
    (win : ℤ × ℤ) (q k v : List FVec) (dv i d : ℕ)
    (hv : ∀ u ∈ v, u.length = dv) (hkv : k.length = v.length)
    (hi : i < q.length) (hd : d < dv) :
    ((refKernelBH scale slope sb causal win q k v).getD i []).getD d 0
      = ∑ j ∈ (Finset.range k.length).filter
          (fun j => maskedAt causal win q.length k.length i j = false),
          sigmoid (dotVec (q.getD i []) (k.getD j []) * scale
              + alibiBias slope q.length k.length i j + sb)
            * (v.getD j []).getD d 0 ∧
    ((refKernelBH 1 0 0 false (-1, -1) [[0]] [[1]] [[1]]).getD 0 []).getD 0 0
      = 1 / 2 ∧
    (1 / 2 : ℝ) ≠ 1 :=
  ⟨refKernelBH_entry scale slope sb causal win q k v dv i d hv hkv hi hd,
   refKernelBH_single_key, by norm_num⟩

/-- C1 witness: the weight formula instantiated at the concrete one-query,
one-key, one-dimensional input. -/
theorem c1_sigmoid_weighting_witness :
    (((refKernelBH 1 0 0 false (-1, -1) [[0]] [[1]] [[1]]).getD 0 []).getD 0 0
      = ∑ j ∈ (Finset.range ([[(1 : ℝ)]] : List FVec).length).filter
          (fun j => maskedAt false (-1, -1) ([[(0 : ℝ)]] : List FVec).length
            ([[(1 : ℝ)]] : List FVec).length 0 j = false),
          sigmoid (dotVec (([[(0 : ℝ)]] : List FVec).getD 0 [])
              (([[(1 : ℝ)]] : List FVec).getD j []) * 1
              + alibiBias 0 ([[(0 : ℝ)]] : List FVec).length
                ([[(1 : ℝ)]] : List FVec).length 0 j + 0)
            * (([[(1 : ℝ)]] : List FVec).getD j []).getD 0 0) ∧
    ((refKernelBH 1 0 0 false (-1, -1) [[0]] [[1]] [[1]]).getD 0 []).getD 0 0
      = 1 / 2 ∧
    (1 / 2 : ℝ) ≠ 1 :=
  c1_sigmoid_weighting 1 0 0 false (-1, -1) [[0]] [[1]] [[1]] 1 0 0
    (by intro u hu; rw [List.mem_singleton] at hu; subst hu; rfl)
    rfl (by simp) (by simp)

/-- A linear layer produces one output entry per weight row. -/
theorem applyLin1_length (l : LinLayer) (x : FVec) :
    (l.apply1 x).length = l.weight.length := by
  simp [LinLayer.apply1]

/-- Applying a linear layer along the feature axis gives feature width
equal to the number of weight rows, for any input widths. -/
theorem applyLin3_wf (l : LinLayer) (x : Tens3) (b n : ℕ)
    (hx : wfBN b n x) : wf3 b n l.weight.length (applyLin3 l x) := by
  refine ⟨by rw [applyLin3, List.length_map, hx.1], ?_⟩
  intro s hs
  rcases List.mem_map.mp hs with ⟨s0, hs0, rfl⟩
  refine ⟨by rw [List.length_map, hx.2 s0 hs0], ?_⟩
  intro u hu
  rcases List.mem_map.mp hu with ⟨u0, _, rfl⟩
  exact applyLin1_length l u0

/-- Shape of a head-split slice of a feature vector that is long
enough. -/
theorem sliceHeads_wf (s nh hd : ℕ) (vec : FVec)
    (hlen : (s + 1) * (nh * hd) ≤ vec.length) :
    (sliceHeads s nh hd vec).length = nh ∧
    ∀ u ∈ sliceHeads s nh hd vec, u.length = hd := by
  refine ⟨by simp [sliceHeads], ?_⟩
  intro u hu
  rcases List.mem_map.mp hu with ⟨h, hh, rfl⟩
  have hh2 : h < nh := List.mem_range.mp hh
  rw [List.length_take, List.length_drop]
  have h1 : h * hd + hd ≤ nh * hd := by
    have h3 : (h + 1) * hd ≤ nh * hd := Nat.mul_le_mul_right hd (by omega)
    have h4 : (h + 1) * hd = h * hd + hd := by ring
    omega
  have h2 : s * (nh * hd) + nh * hd = (s + 1) * (nh * hd) := by ring
  omega

/-- Reshaping a well-formed projected tensor into heads is
well-formed. -/
theorem reshape_wf (s nh hd : ℕ) (x : Tens3) (b n c : ℕ)
    (hx : wf3 b n c x) (hc : (s + 1) * (nh * hd) ≤ c) :
    wf4 b n nh hd (x.map (fun sq => sq.map (sliceHeads s nh hd))) := by
  refine ⟨by rw [List.length_map, hx.1], ?_⟩
  intro sq hsq
  rcases List.mem_map.mp hsq with ⟨s0, hs0, rfl⟩
  refine ⟨by rw [List.length_map, (hx.2 s0 hs0).1], ?_⟩
  intro u hu
  rcases List.mem_map.mp hu with ⟨u0, hu0, rfl⟩
  exact sliceHeads_wf s nh hd u0 (by rw [(hx.2 s0 hs0).2 u0 hu0]; exact hc)

/-- Shape of a head slice of a well-formed batch element. -/
theorem headSlice_wf (h : ℕ) (bb : List (List FVec)) (hh d : ℕ)
    (hlt : h < hh)
    (hbb : ∀ s ∈ bb, s.length = hh ∧ ∀ w ∈ s, w.length = d) :
    (headSlice h bb).length = bb.length ∧
    ∀ u ∈ headSlice h bb, u.length = d := by
  refine ⟨by simp [headSlice], ?_⟩
  intro u hu
  rcases List.mem_map.mp hu with ⟨s0, hs0, rfl⟩
  have hlen : h < s0.length := by rw [(hbb s0 hs0).1]; exact hlt
  rw [List.getD_eq_getElem _ _ hlen]
  exact (hbb s0 hs0).2 _ (List.getElem_mem hlen)

/-- Shape of the per-head kernel output: one row per query, width that of
the values. -/
theorem refKernelBH_wf (scale slope sb : ℝ) (causal : Bool) (win : ℤ × ℤ)
    (q k v : List FVec) (dv : ℕ)
    (hv : ∀ u ∈ v, u.length = dv) (hvne : v ≠ [])
    (hkv : k.length = v.length) :
    (refKernelBH scale slope sb causal win q k v).length = q.length ∧
    ∀ w ∈ refKernelBH scale slope sb causal win q k v, w.length = dv := by
  refine ⟨by simp [refKernelBH], ?_⟩
  intro w hw
  rcases List.mem_map.mp hw with ⟨i, _, rfl⟩
  have hv0 : 0 < v.length := List.length_pos.mpr hvne
  have hdv0 : (v.getD 0 []).length = dv := by
    rw [List.getD_eq_getElem _ _ hv0]
    exact hv _ (List.getElem_mem hv0)
  rw [hdv0]
  refine sumVecs_length dv _ ?_
  intro u hu
  rcases List.mem_filterMap.mp hu with ⟨j, hj, hfj⟩
  rcases Decidable.em
    (maskedAt causal win q.length k.length i j = true) with hm | hm
  · rw [if_pos hm] at hfj
    cases hfj
  · rw [if_neg hm] at hfj
    have hjlen : j < v.length := by
      rw [← hkv]
      exact List.mem_range.mp hj
    rw [← Option.some.inj hfj, smulVec, List.length_map,
      List.getD_eq_getElem _ _ hjlen]
    exact hv _ (List.getElem_mem hjlen)

/-- Shape of one batch element of the kernel: one row per query position,
one column per head, entries the width of the values. -/
theorem refKernelB_wf (scale sb : ℝ) (al : Option (List ℝ)) (causal : Bool)
    (win : ℤ × ℤ) (qb kb vb : List (List FVec)) (nq nkv hh d : ℕ)
    (hqb : qb.length = nq ∧ ∀ s ∈ qb, s.length = hh)
    (hkb : kb.length = nkv ∧ ∀ s ∈ kb, s.length = hh ∧ ∀ w ∈ s, w.length = d)
    (hvb : vb.length = nkv ∧ ∀ s ∈ vb, s.length = hh ∧ ∀ w ∈ s, w.length = d)
    (hnq : 0 < nq) (hnkv : 0 < nkv) :
    (refKernelB scale sb al causal win qb kb vb).length = nq ∧
    ∀ r ∈ refKernelB scale sb al causal win qb kb vb,
      r.length = hh ∧ ∀ w ∈ r, w.length = d := by
  have hqb0 : (qb.getD 0 []).length = hh := by
    have h0 : 0 < qb.length := by omega
    rw [List.getD_eq_getElem _ _ h0]
    exact hqb.2 _ (List.getElem_mem h0)
  refine ⟨by simp [refKernelB, hqb.1], ?_⟩
  intro r hr
  rcases List.mem_map.mp hr with ⟨i, hi, rfl⟩
  have hi2 : i < nq := by
    rw [← hqb.1]
    exact List.mem_range.mp hi
  refine ⟨by rw [List.length_map, List.length_range]; exact hqb0, ?_⟩
  intro w hw
  rcases List.mem_map.mp hw with ⟨h, hh2, rfl⟩
  have hh3 : h < hh := by
    rw [← hqb0]
    exact List.mem_range.mp hh2
  have hvslice := headSlice_wf h vb hh d hh3 (fun s hs => (hvb.2 s hs))
  have hvne : headSlice h vb ≠ [] := by
    have : (headSlice h vb).length = nkv := by rw [hvslice.1, hvb.1]
    intro hcon
    rw [hcon] at this
    simp at this
    omega
  have hkern := refKernelBH_wf scale (slopeAt al h) sb causal win
    (headSlice h qb) (headSlice h kb) (headSlice h vb) d
    hvslice.2 hvne
    (by simp [headSlice, hkb.1, hvb.1])
  have hilen : i < (refKernelBH scale (slopeAt al h) sb causal win
      (headSlice h qb) (headSlice h kb) (headSlice h vb)).length := by
    rw [hkern.1]
    simp [headSlice, hqb.1]
    exact hi2
  rw [List.getD_eq_getElem _ _ hilen]
  exact hkern.2 _ (List.getElem_mem hilen)

/-- Shape of the modelled kernel output: batch and query extents of `q`,
head extent shared, head dimension that of the values. -/
theorem flashFunc_wf (ss : Option ℝ) (sb ad : ℝ) (win : ℤ × ℤ)
    (al : Option (List ℝ)) (causal : Bool) (q k v : Tens4)
    (b nq nkv hh dq d : ℕ)
    (hq : wf4 b nq hh dq q) (hk : wf4 b nkv hh d k) (hv : wf4 b nkv hh d v)
    (hnq : 0 < nq) (hnkv : 0 < nkv) :
    wf4 b nq hh d (flashAttnSigmoidFunc ss sb ad win al causal q k v) := by
  refine ⟨by simp [flashAttnSigmoidFunc, hq.1], ?_⟩
  intro s hs
  rcases List.mem_map.mp hs with ⟨bi, hbi, rfl⟩
  have hbi2 : bi < b := by
    rw [← hq.1]
    exact List.mem_range.mp hbi
  have hbq : bi < q.length := by rw [hq.1]; exact hbi2
  have hbk : bi < k.length := by rw [hk.1]; exact hbi2
  have hbv : bi < v.length := by rw [hv.1]; exact hbi2
  have hqb := hq.2 _ (List.getElem_mem hbq)
  have hkb := hk.2 _ (List.getElem_mem hbk)
  have hvb := hv.2 _ (List.getElem_mem hbv)
  have := refKernelB_wf (ss.getD ((headDimT4 q : ℝ) ^ (-(1 / 2) : ℝ)))
    sb al causal win (q.getD bi []) (k.getD bi []) (v.getD bi []) nq nkv hh d
    (by rw [List.getD_eq_getElem _ _ hbq]; exact ⟨hqb.1, fun s2 hs2 => (hqb.2 s2 hs2).1⟩)
    (by rw [List.getD_eq_getElem _ _ hbk]; exact hkb)
    (by rw [List.getD_eq_getElem _ _ hbv]; exact hvb)
    hnq hnkv
  exact ⟨this.1, this.2⟩

/-- Entrywise scaling preserves the shape of a tensor. -/
theorem scaleT4_wf (s : ℝ) (x : Tens4) (b n hh d : ℕ) (hx : wf4 b n hh d x) :
    wf4 b n hh d (scaleT4 s x) := by
  refine ⟨by rw [scaleT4, List.length_map, hx.1], ?_⟩
  intro s2 hs2
  rcases List.mem_map.mp hs2 with ⟨s0, hs0, rfl⟩
  refine ⟨by rw [List.length_map, (hx.2 s0 hs0).1], ?_⟩
  intro u hu
  rcases List.mem_map.mp hu with ⟨u0, hu0, rfl⟩
  refine ⟨by rw [List.length_map, ((hx.2 s0 hs0).2 u0 hu0).1], ?_⟩
  intro w hw
  rcases List.mem_map.mp hw with ⟨w0, hw0, rfl⟩
  rw [smulVec, List.length_map]
  exact ((hx.2 s0 hs0).2 u0 hu0).2 w0 hw0

/-- The total length of a concatenation of `h` vectors of length `d`. -/
theorem sum_map_length (u : List FVec) (d : ℕ)
    (h : ∀ w ∈ u, w.length = d) : (u.map List.length).sum = u.length * d := by
  induction u with
  | nil => simp
  | cons w ws ih =>
    rw [List.map_cons, List.sum_cons, ih (fun w2 hw2 => h w2 (by simp [hw2])),
      h w (by simp), List.length_cons]
    ring

/-- Flattening the (heads, head_dim) axes of a well-formed tensor gives
feature width `heads * head_dim`. -/
theorem flatten2_wf (x : Tens4) (b n hh d : ℕ) (hx : wf4 b n hh d x) :
    wf3 b n (hh * d) (flatten2 x) := by
  refine ⟨by rw [flatten2, List.length_map, hx.1], ?_⟩
  intro s hs
  rcases List.mem_map.mp hs with ⟨s0, hs0, rfl⟩
  refine ⟨by rw [List.length_map, (hx.2 s0 hs0).1], ?_⟩
  intro u hu
  rcases List.mem_map.mp hu with ⟨u0, hu0, rfl⟩
  rw [List.length_flatten, sum_map_length u0 d ((hx.2 s0 hs0).2 u0 hu0).2,
    ((hx.2 s0 hs0).2 u0 hu0).1]

/-- Shape of the unfused wrapper at `prescale = true`. -/
theorem flash2_wf (q k v : Tens4) (sb ad : ℝ) (win : ℤ × ℤ)
    (al : Option (List ℝ)) (causal : Bool) (b nq nkv hh dq d : ℕ)
    (hq : wf4 b nq hh dq q) (hk : wf4 b nkv hh d k) (hv : wf4 b nkv hh d v)
    (hnq : 0 < nq) (hnkv : 0 < nkv) :
    wf3 b nq (hh * d) (flash2_sigmoid_attn q k v sb ad win al causal true) := by
  show wf3 b nq (hh * d) (flatten2 (flashAttnSigmoidFunc (some 1) sb ad win al
    causal (scaleT4 ((headDimT4 q : ℝ) ^ (-(1 / 4) : ℝ)) q)
    (scaleT4 ((headDimT4 q : ℝ) ^ (-(1 / 4) : ℝ)) k) v))
  exact flatten2_wf _ b nq hh d
    (flashFunc_wf (some 1) sb ad win al causal _ _ v b nq nkv hh dq d
      (scaleT4_wf _ q b nq hh dq hq) (scaleT4_wf _ k b nkv hh d hk) hv hnq hnkv)

/-- Weakening: a well-formed tensor has the stated batch and sequence
extents. -/
theorem wf3_wfBN (b n c : ℕ) (x : Tens3) (h : wf3 b n c x) : wfBN b n x :=
  ⟨h.1, fun s hs => (h.2 s hs).1⟩

/-- Shapes through `FlashSigmoidCrossAttention.forward` for a layer whose
fields satisfy the external primitives' contracts: `attn_times_v` has
feature width `heads * head_dim_kv` and `attn_proj` the width of the
output projection. -/
theorem crossForward_wf (l : FlashSigmoidCrossAttention)
    (qin kvin : DTensor Tens3) (bN nq nkv hh dq d cOut : ℕ)
    (hQproj : l.q_proj.weight.length = hh * dq)
    (hKVproj : l.kv_proj.weight.length = 2 * (hh * d))
    (hheads : l.num_heads = hh) (hhdq : l.head_dim_q = dq)
    (hhdkv : l.head_dim_kv = d)
    (hqn : ∀ t : DTensor Tens4,
      wf4 bN nq hh dq t.data → wf4 bN nq hh dq (l.q_norm t).data)
    (hkn : ∀ t : DTensor Tens4,
      wf4 bN nkv hh d t.data → wf4 bN nkv hh d (l.k_norm t).data)
    (hvn : ∀ t : DTensor Tens4,
      wf4 bN nkv hh d t.data → wf4 bN nkv hh d (l.v_norm t).data)
    (hxf : l.qk_transform = none)
    (hkern : l.which_flash_attn = flash2KernelDT)
    (hproj : l.proj.weight.length = cOut)
    (hdrop : ∀ t : Tens3, wf3 bN nq cOut t → wf3 bN nq cOut (l.proj_drop t))
    (hnq : 0 < nq) (hnkv : 0 < nkv)
    (hqin : wfBN bN nq qin.data) (hkvin : wfBN bN nkv kvin.data) :
    wf3 bN nq (hh * d) ((l.forward qin kvin ()).attn_times_v) ∧
    wf3 bN nq cOut ((l.forward qin kvin ()).attn_proj) := by
  have e2 : l.kernelInput qin kvin
      = ((l.q_norm (crossProjSplit l qin kvin).1).to
           (l.v_norm (crossProjSplit l qin kvin).2.2).dtype,
         (l.k_norm (crossProjSplit l qin kvin).2.1).to
           (l.v_norm (crossProjSplit l qin kvin).2.2).dtype,
         l.v_norm (crossProjSplit l qin kvin).2.2) := by
    unfold FlashSigmoidCrossAttention.kernelInput
    rw [hxf]
  have e3 : (crossProjSplit l qin kvin).1.data
      = (applyLin3 l.q_proj qin.data).map
          (fun s => s.map (sliceHeads 0 hh dq)) := by
    rw [← hheads, ← hhdq]
    rfl
  have e4 : (crossProjSplit l qin kvin).2.1.data
      = (applyLin3 l.kv_proj kvin.data).map
          (fun s => s.map (sliceHeads 0 hh d)) := by
    rw [← hheads, ← hhdkv]
    rfl
  have e5 : (crossProjSplit l qin kvin).2.2.data
      = (applyLin3 l.kv_proj kvin.data).map
          (fun s => s.map (sliceHeads 1 hh d)) := by
    rw [← hheads, ← hhdkv]
    rfl
  have h1 := applyLin3_wf l.q_proj qin.data bN nq hqin
  rw [hQproj] at h1
  have h2 := applyLin3_wf l.kv_proj kvin.data bN nkv hkvin
  rw [hKVproj] at h2
  have hq0 : wf4 bN nq hh dq (crossProjSplit l qin kvin).1.data := by
    rw [e3]
    exact reshape_wf 0 hh dq _ bN nq (hh * dq) h1 (le_of_eq (by ring))
  have hk0 : wf4 bN nkv hh d (crossProjSplit l qin kvin).2.1.data := by
    rw [e4]
    refine reshape_wf 0 hh d _ bN nkv (2 * (hh * d)) h2 ?_
    have h3 : (0 + 1) * (hh * d) = hh * d := by ring
    omega
  have hv0 : wf4 bN nkv hh d (crossProjSplit l qin kvin).2.2.data := by
    rw [e5]
    refine reshape_wf 1 hh d _ bN nkv (2 * (hh * d)) h2 ?_
    have h3 : (1 + 1) * (hh * d) = 2 * (hh * d) := by ring
    omega
  have hq1 := hqn _ hq0
  have hk1 := hkn _ hk0
  have hv1 := hvn _ hv0
  have e6 : (l.forward qin kvin ()).attn_times_v
      = flash2_sigmoid_attn (l.q_norm (crossProjSplit l qin kvin).1).data
          (l.k_norm (crossProjSplit l qin kvin).2.1).data
          (l.v_norm (crossProjSplit l qin kvin).2.2).data
          l.sigmoid_bias l.attn_drop l.window_size l.alibi_slopes l.causal
          true := by
    rw [show (l.forward qin kvin ()).attn_times_v
        = l.which_flash_attn (l.kernelInput qin kvin).1
            (l.kernelInput qin kvin).2.1 (l.kernelInput qin kvin).2.2
            l.attn_drop l.causal l.window_size l.alibi_slopes l.sigmoid_bias
      from rfl, hkern, e2]
    rfl
  have hatv : wf3 bN nq (hh * d) ((l.forward qin kvin ()).attn_times_v) := by
    rw [e6]
    exact flash2_wf _ _ _ _ _ _ _ _ bN nq nkv hh dq d hq1 hk1 hv1 hnq hnkv
  refine ⟨hatv, ?_⟩
  have e7 : (l.forward qin kvin ()).attn_proj
      = l.proj_drop (applyLin3 l.proj ((l.forward qin kvin ()).attn_times_v)) :=
    rfl
  rw [e7]
  refine hdrop _ ?_
  have h4 := applyLin3_wf l.proj ((l.forward qin kvin ()).attn_times_v)
    bN nq (wf3_wfBN bN nq (hh * d) _ hatv)
  rw [hproj] at h4
  exact h4

/-- C6: cross-attention with `q_dim ≠ kv_dim` (both divisible by
`num_heads`): construction succeeds, and under the shape contracts of the
injected primitives (`which_linear` with the `nn.Linear` shape, a
shape-preserving `norm_layer` and dropout) forward succeeds with
`attn_times_v` of feature width `kv_dim`, the output projection mapping
`kv_dim` to `q_dim`, and `attn_proj` of shape
`(batch, seq_q, q_dim)` regardless of `kv_dim`. -/
theorem c6_cross_dims (q_dim kv_dim nh bN nq nkv : ℕ) (sb : ℝ)
    (causal : Bool) (bias bq : Bool) (ad pd : ℝ) (win : ℤ × ℤ)
    (al : Option (List ℝ)) (nl : ℕ → DTensor Tens4 → DTensor Tens4)
    (wl : ℕ → ℕ → Bool → LinLayer) (dr : ℝ → Tens3 → Tens3)
    (qin kvin : DTensor Tens3)
    (hdvq : nh ∣ q_dim) (hdvkv : nh ∣ kv_dim) (_hne : q_dim ≠ kv_dim)
    (hnq : 0 < nq) (hnkv : 0 < nkv)
    (hwl : ∀ i o b2, (wl i o b2).weight.length = o)
    (hnl : ∀ dm b2 n2 h2 d2 (t : DTensor Tens4),
      wf4 b2 n2 h2 d2 t.data → wf4 b2 n2 h2 d2 (nl dm t).data)
    (hdr : ∀ p b2 n2 c2 (t : Tens3), wf3 b2 n2 c2 t → wf3 b2 n2 c2 (dr p t))
    (hqin : wfBN bN nq qin.data) (hkvin : wfBN bN nkv kvin.data) :
    FlashSigmoidCrossAttention.init q_dim kv_dim sb causal nh bias bq ad pd
        win al nl wl none flash2KernelDT dr
      = .ok (mkCrossAttention q_dim kv_dim sb causal nh bias bq ad pd win al
          nl wl none flash2KernelDT dr) ∧
    (mkCrossAttention q_dim kv_dim sb causal nh bias bq ad pd win al nl wl
        none flash2KernelDT dr).proj = wl kv_dim q_dim bias ∧
    wf3 bN nq kv_dim
      (((mkCrossAttention q_dim kv_dim sb causal nh bias bq ad pd win al nl
        wl none flash2KernelDT dr).forward qin kvin ()).attn_times_v) ∧
    wf3 bN nq q_dim
      (((mkCrossAttention q_dim kv_dim sb causal nh bias bq ad pd win al nl
        wl none flash2KernelDT dr).forward qin kvin ()).attn_proj) := by
  have hmulq : nh * (q_dim / nh) = q_dim := Nat.mul_div_cancel' hdvq
  have hmulkv : nh * (kv_dim / nh) = kv_dim := Nat.mul_div_cancel' hdvkv
  have hmain := crossForward_wf
    (mkCrossAttention q_dim kv_dim sb causal nh bias bq ad pd win al nl wl
      none flash2KernelDT dr) qin kvin bN nq nkv nh (q_dim / nh)
    (kv_dim / nh) q_dim
    (by show (wl q_dim q_dim bias).weight.length = nh * (q_dim / nh)
        rw [hwl q_dim q_dim bias]
        exact hmulq.symm)
    (by show (wl kv_dim (kv_dim * 2) bias).weight.length
          = 2 * (nh * (kv_dim / nh))
        rw [hwl kv_dim (kv_dim * 2) bias, hmulkv]
        ring)
    rfl rfl rfl
    (by intro t ht
        cases bq
        · exact ht
        · exact hnl (q_dim / nh) bN nq nh (q_dim / nh) t ht)
    (by intro t ht
        cases bq
        · exact ht
        · exact hnl (kv_dim / nh) bN nkv nh (kv_dim / nh) t ht)
    (by intro t ht
        exact hnl (kv_dim / nh) bN nkv nh (kv_dim / nh) t ht)
    rfl rfl
    (by show (wl kv_dim q_dim bias).weight.length = q_dim
        exact hwl kv_dim q_dim bias)
    (by intro t ht
        exact hdr pd bN nq q_dim t ht)
    hnq hnkv hqin hkvin
  refine ⟨?_, rfl, ?_, hmain.2⟩
  · unfold FlashSigmoidCrossAttention.init
    rw [if_pos ⟨Nat.mod_eq_zero_of_dvd hdvq, Nat.mod_eq_zero_of_dvd hdvkv⟩]
  · have h5 := hmain.1
    rw [hmulkv] at h5
    exact h5

/-- C6 witness: a concrete cross-attention layer with `q_dim = 1`,
`kv_dim = 2`, one head, on a one-position batch: the output projection
field and the output shape `(1, 1, 1)`. -/
theorem c6_cross_dims_witness :
    (mkCrossAttention 1 2 0 true 1 false false 0 0 (-1, -1) none idNorm
        onesLinear none flash2KernelDT idDropout).proj = onesLinear 2 1 false ∧
    wf3 1 1 1
      (((mkCrossAttention 1 2 0 true 1 false false 0 0 (-1, -1) none idNorm
        onesLinear none flash2KernelDT idDropout).forward sampleX sampleKV
        ()).attn_proj) :=
  have h := c6_cross_dims 1 2 1 1 1 1 0 true false false 0 0 (-1, -1) none
    idNorm onesLinear idDropout sampleX sampleKV
    ⟨1, rfl⟩ ⟨2, rfl⟩ (by decide) (by decide) (by decide)
    (fun i o b2 => by simp [onesLinear])
    (fun dm b2 n2 h2 d2 t ht => ht)
    (fun p b2 n2 c2 t ht => ht)
    (by constructor
        · rfl
        · intro s hs
          rw [show s ∈ sampleX.data ↔ s = [[(1 : ℝ)]] from by
            simp [sampleX]] at hs
          rw [hs]
          rfl)
    (by constructor
        · rfl
        · intro s hs
          rw [show s ∈ sampleKV.data ↔ s = [[(1 : ℝ), 1]] from by
            simp [sampleKV]] at hs
          rw [hs]
          rfl)
  ⟨h.2.1, h.2.2.2⟩
